import Mathlib

/-!
Shallow embedding of the `mkmbr` disk-image generator from `src/gpio.h`
(the `mkmbr.c` part, lines 130-383): the CHS geometry calculator `chs`
and the image builder `mkmbr`, together with theorems settling the
specification claims about them.

Machine integers are modelled as `Nat` with an explicit `% 2 ^ 32` at the
points where the C code stores into a `uint32_t` (unsigned wraparound) and
`% 256` where it stores into a `uint8_t`.  File I/O is modelled as pure
byte lists: a partition source is its byte content (so `stat`'s `st_size`
is the list length and streaming the file yields exactly the list), the
output `FILE*` is an accumulated byte list, and the possibility of a null
pointer or of a missing sink is modelled by `Option` / `Bool` flags.
-/

set_option maxRecDepth 8000

namespace Mkmbr

/-- Constant `SECTOR_SIZE` (gpio.h:150). -/
abbrev SECTOR_SIZE : Nat := 512

/-- Constant `HEADS_PER_CYLINDER` (gpio.h:151). -/
abbrev HEADS_PER_CYLINDER : Nat := 16

/-- Constant `SECTORS_PER_HEAD` (gpio.h:152). -/
abbrev SECTORS_PER_HEAD : Nat := 63

/-- Packed CHS address bytes (struct `chs_t`, gpio.h:154-158): `head` is the
head byte, `sector` packs the 6-bit 1-based sector together with the two high
bits of the cylinder, and `cylinder` is the low byte of the cylinder.  Each
field is a `uint8_t` in the source, so each holds a value `< 256`. -/
structure chs_t where
  head : Nat
  sector : Nat
  cylinder : Nat
  deriving DecidableEq, Repr

/-- Model of `chs` (gpio.h:160-170).  The first component is the C `int`
return value (`0` on success, `-EINVAL = -22` on overflow), the second is the
`chs_t` stored through `out`.  All intermediate arithmetic is on `uint32_t`
values that only ever shrink (`%` and `/` by 63 and 16), so no `uint32_t`
wraparound can occur inside; the three stores are `uint8_t` assignments,
hence the `% 256`. -/
def chs (lba : Nat) : Int × chs_t :=
  let s := lba % SECTORS_PER_HEAD
  let lba1 := lba / SECTORS_PER_HEAD
  let h := lba1 % HEADS_PER_CYLINDER
  let c := lba1 / HEADS_PER_CYLINDER
  if 0x3FF < c ∨ 0x3F < s ∨ 0xFF < h then
    (-22, ⟨0xFF, 0xFF, 0xFF⟩)
  else
    (0, ⟨h % 256, ((s + 1) ||| ((c >>> 8) <<< 6)) % 256, c % 256⟩)

/-- Shifting right by 8 is division by 256. -/
theorem shiftRight8 (c : Nat) : c >>> 8 = c / 256 := by
  rw [Nat.shiftRight_eq_div_pow]

/-- Shifting right by 6 is division by 64. -/
theorem shiftRight6 (c : Nat) : c >>> 6 = c / 64 := by
  rw [Nat.shiftRight_eq_div_pow]

set_option maxRecDepth 4000 in
/-- Disjoint bitwise-or: for a 6-bit value `a` and a 2-bit value `b`,
`a ||| (b <<< 6)` is `a + 64 * b`. -/
theorem lor_shift6 : ∀ a, a < 64 → ∀ b, b < 4 → a ||| (b <<< 6) = a + 64 * b := by
  decide

/-- Success shape of `chs`: whenever the derived cylinder is at most 1023,
`chs` returns 0 and the packed bytes in arithmetic normal form. -/
theorem chs_of_le (lba : Nat) (h : lba / 1008 ≤ 1023) :
    chs lba = (0, ⟨lba / 63 % 16,
      lba % 63 + 1 + 64 * (lba / 1008 / 256), lba / 1008 % 256⟩) := by
  have hdd : lba / 63 / 16 = lba / 1008 := by
    rw [Nat.div_div_eq_div_mul]
  have hb : (lba / 63 / 16) >>> 8 < 4 := by
    rw [shiftRight8]
    omega
  have hl := lor_shift6 (lba % 63 + 1) (by omega) ((lba / 63 / 16) >>> 8) hb
  simp only [chs, SECTORS_PER_HEAD, HEADS_PER_CYLINDER]
  rw [if_neg (by omega)]
  rw [hl, shiftRight8, hdd]
  have h1 : lba / 63 % 16 % 256 = lba / 63 % 16 := by omega
  have h2 : (lba % 63 + 1 + 64 * (lba / 1008 / 256)) % 256
      = lba % 63 + 1 + 64 * (lba / 1008 / 256) := by omega
  rw [h1, h2]

/-- Failure shape of `chs`: whenever the derived cylinder exceeds 1023,
`chs` returns `-EINVAL` and stores the sentinel. -/
theorem chs_of_gt (lba : Nat) (h : 1023 < lba / 1008) :
    chs lba = (-22, ⟨0xFF, 0xFF, 0xFF⟩) := by
  have hdd : lba / 63 / 16 = lba / 1008 := by
    rw [Nat.div_div_eq_div_mul]
  simp only [chs, SECTORS_PER_HEAD, HEADS_PER_CYLINDER]
  rw [if_pos (by omega)]

/-- C1: for every LBA whose cylinder `lba / (63*16)` is at most 1023, `chs`
succeeds (returns 0) and produces head byte `(lba / 63) % 16`, sector byte
`((lba % 63) + 1) | ((cylinder >> 8) << 6)` and cylinder byte
`cylinder & 0xFF`, under the fixed geometry of 63 sectors/track and
16 heads/cylinder. -/
theorem chs_in_range (lba : Nat)
    (h : lba / (SECTORS_PER_HEAD * HEADS_PER_CYLINDER) ≤ 1023) :
    (chs lba).1 = 0 ∧
    (chs lba).2.head = lba / SECTORS_PER_HEAD % HEADS_PER_CYLINDER ∧
    (chs lba).2.sector =
      (lba % SECTORS_PER_HEAD + 1) |||
        (((lba / (SECTORS_PER_HEAD * HEADS_PER_CYLINDER)) >>> 8) <<< 6) ∧
    (chs lba).2.cylinder =
      lba / (SECTORS_PER_HEAD * HEADS_PER_CYLINDER) &&& 0xFF := by
  simp only [SECTORS_PER_HEAD, HEADS_PER_CYLINDER, Nat.reduceMul] at h ⊢
  have hb : (lba / 1008) >>> 8 < 4 := by
    rw [shiftRight8]
    omega
  have hl := lor_shift6 (lba % 63 + 1) (by omega) ((lba / 1008) >>> 8) hb
  have hand := Nat.and_pow_two_sub_one_eq_mod (lba / 1008) 8
  norm_num at hand
  rw [chs_of_le lba h, hl, shiftRight8, hand]
  exact ⟨rfl, rfl, rfl, rfl⟩

/-- Witness for C1 at `lba = 2000`. -/
theorem chs_in_range_witness :
    2000 / (SECTORS_PER_HEAD * HEADS_PER_CYLINDER) ≤ 1023 ∧
    ((chs 2000).1 = 0 ∧
     (chs 2000).2.head = 2000 / SECTORS_PER_HEAD % HEADS_PER_CYLINDER ∧
     (chs 2000).2.sector =
       (2000 % SECTORS_PER_HEAD + 1) |||
         (((2000 / (SECTORS_PER_HEAD * HEADS_PER_CYLINDER)) >>> 8) <<< 6) ∧
     (chs 2000).2.cylinder =
       2000 / (SECTORS_PER_HEAD * HEADS_PER_CYLINDER) &&& 0xFF) :=
  ⟨by decide, chs_in_range 2000 (by decide)⟩

/-- C2: `chs` reports an error (returns nonzero, namely `-EINVAL`) iff the
derived cylinder `lba / (63*16)` exceeds 1023 — the derived sector (at most
62 before the `+1`) and head (at most 15) can never exceed their field
widths — and exactly on that failure the stored CHS triple is the sentinel
`{0xFF, 0xFF, 0xFF}`. -/
theorem chs_error_iff (lba : Nat) :
    ((chs lba).1 ≠ 0 ↔ 1023 < lba / (SECTORS_PER_HEAD * HEADS_PER_CYLINDER)) ∧
    ((chs lba).1 ≠ 0 ↔ (chs lba).2 = ⟨0xFF, 0xFF, 0xFF⟩) ∧
    lba % SECTORS_PER_HEAD ≤ 62 ∧
    lba / SECTORS_PER_HEAD % HEADS_PER_CYLINDER ≤ 15 := by
  simp only [SECTORS_PER_HEAD, HEADS_PER_CYLINDER, Nat.reduceMul]
  by_cases hov : 1023 < lba / 1008
  · rw [chs_of_gt lba hov]
    refine ⟨⟨fun _ => hov, fun _ => by decide⟩,
      ⟨fun _ => rfl, fun _ => by decide⟩, by omega, by omega⟩
  · rw [chs_of_le lba (by omega)]
    refine ⟨⟨fun hne => absurd rfl hne, fun hgt => absurd hgt hov⟩,
      ⟨fun hne => absurd rfl hne, fun heq => ?_⟩, by omega, by omega⟩
    have : lba / 63 % 16 = 0xFF := congrArg chs_t.head heq
    omega

/-- Strict lexicographic order on (cylinder, head, sector) triples. -/
def lexLt : Nat × Nat × Nat → Nat × Nat × Nat → Prop
  | (c1, h1, s1), (c2, h2, s2) =>
    c1 < c2 ∨ (c1 = c2 ∧ (h1 < h2 ∨ (h1 = h2 ∧ s1 < s2)))

/-- Decode the packed CHS bytes back into the logical
(cylinder, head, sector) triple, per the packed CHS byte convention: the two
top bits of the sector byte are the cylinder's bits 8-9, its low 6 bits are
the sector. -/
def chsLogical (x : chs_t) : Nat × Nat × Nat :=
  (((x.sector >>> 6) <<< 8) + x.cylinder, x.head, x.sector &&& 0x3F)

/-- On the representable range the decoded triple is exactly
`(lba / 1008, lba / 63 % 16, lba % 63 + 1)`. -/
theorem chsLogical_chs (lba : Nat) (h : lba / 1008 ≤ 1023) :
    chsLogical (chs lba).2 =
      (lba / 1008, lba / 63 % 16, lba % 63 + 1) := by
  rw [chs_of_le lba h]
  have hand := Nat.and_pow_two_sub_one_eq_mod
    (lba % 63 + 1 + 64 * (lba / 1008 / 256)) 6
  norm_num at hand
  simp only [chsLogical, hand, shiftRight6, Nat.shiftLeft_eq, Prod.mk.injEq]
  norm_num
  refine ⟨by omega, by omega⟩

/-- C8: `chs` is monotonic — for `lba1 < lba2` both within the representable
range (cylinder at most 1023), the resulting logical (cylinder, head, sector)
triples are in the same strict lexicographic order. -/
theorem chs_monotonic (lba1 lba2 : Nat)
    (h1 : lba1 / (SECTORS_PER_HEAD * HEADS_PER_CYLINDER) ≤ 1023)
    (h2 : lba2 / (SECTORS_PER_HEAD * HEADS_PER_CYLINDER) ≤ 1023)
    (hlt : lba1 < lba2) :
    lexLt (chsLogical (chs lba1).2) (chsLogical (chs lba2).2) := by
  simp only [SECTORS_PER_HEAD, HEADS_PER_CYLINDER, Nat.reduceMul] at h1 h2
  rw [chsLogical_chs lba1 h1, chsLogical_chs lba2 h2]
  simp only [lexLt]
  have d1 : lba1 / 63 / 16 = lba1 / 1008 := by rw [Nat.div_div_eq_div_mul]
  have d2 : lba2 / 63 / 16 = lba2 / 1008 := by rw [Nat.div_div_eq_div_mul]
  omega

/-- Witness for C8 at `lba1 = 5, lba2 = 70000`. -/
theorem chs_monotonic_witness :
    5 / (SECTORS_PER_HEAD * HEADS_PER_CYLINDER) ≤ 1023 ∧
    70000 / (SECTORS_PER_HEAD * HEADS_PER_CYLINDER) ≤ 1023 ∧
    5 < 70000 ∧
    lexLt (chsLogical (chs 5).2) (chsLogical (chs 70000).2) :=
  ⟨by decide, by decide, by decide,
   chs_monotonic 5 70000 (by decide) (by decide) (by decide)⟩

/-!
The `mkmbr` function itself (gpio.h:172-289).

Modelling notes, keyed to the source:

* A partition is its file's byte content plus its type byte; `stat`'s
  `st_size` is the content length and the `fgetc` loop streams exactly the
  content.  `stat`/`fopen` failures (`SourceIOError`) and `fwrite`/`fputc`
  failures (`DestinationIOError`) are environment failures with no
  counterpart in a pure embedding, so the modelled I/O always succeeds.
* The null-pointer checks on `bootstrap`, `partition_files`,
  `partition_types` and `out` are modelled by an `Option` for the bootstrap
  buffer and `Bool` presence flags for the other three.
* `reterr` returns a nonzero code and an error message; the claims only
  distinguish the kind of failure, so errors are an inductive.
* The `assert`s that can actually fire are modelled as an `assertFail`
  outcome: the `partition_lbas[i] != UINT32_MAX` / `partition_lba_counts[i]
  != UINT32_MAX` sentinel checks (gpio.h:234-235; the arrays are initialized
  `{UINT32_MAX}` and a computed entry can collide with the sentinel), and
  the final `(ftell(out)-bs)/SECTOR_SIZE == cur_sector` check (gpio.h:282).
  The remaining asserts are invariants that always hold: gpio.h:224 (446
  bootstrap bytes were written), gpio.h:233 (`partition_pad[i]` is `< 512`,
  never `UINT64_MAX`), gpio.h:259 (an entry is 16 bytes) and gpio.h:279
  (each partition's data plus padding is a whole number of sectors).
* `fwrite(&partition_lbas[i], 1, 4, out)` (gpio.h:257-258) writes the four
  memory bytes of the `uint32_t`, so its byte order is the host's;
  `write32` takes the host endianness as a parameter.  `main` (gpio.h:
  292-297) refuses to run on a non-little-endian host.
-/

/-- Error outcomes of `mkmbr` that are expressible in the pure model:
the `reterr(-EINVAL, ...)` validation rejections (gpio.h:186-193), the
`reterr(-EINVAL, "error calculating chs from lba %u", partition_lbas[i])`
geometry failures (gpio.h:240-246), and an `assert` firing. -/
inductive MkmbrErr where
  | validation
  | geometry (lba : Nat)
  | assertFail
  deriving DecidableEq, Repr

/-- A partition specification: the content bytes of its source file and its
partition type byte. -/
structure PartSpec where
  content : List Nat
  ptype : Nat
  deriving DecidableEq, Repr

/-- The `main` startup check (gpio.h:292-297): the program proceeds only on
a little-endian host. -/
def endianSupported (little : Bool) : Bool := little

/-- Spec-side definition: the little-endian encoding of a 32-bit value,
least-significant byte first. -/
def le32 (n : Nat) : List Nat :=
  [n % 256, n / 256 % 256, n / 65536 % 256, n / 16777216 % 256]

/-- Model of `fwrite(&x, 1, 4, out)` on a `uint32_t` `x` (gpio.h:257-258):
the four bytes of the host's memory representation, LSB-first on a
little-endian host and MSB-first on a big-endian one. -/
def write32 (little : Bool) (n : Nat) : List Nat :=
  if little then
    [n % 256, n / 256 % 256, n / 65536 % 256, n / 16777216 % 256]
  else
    [n / 16777216 % 256, n / 65536 % 256, n / 256 % 256, n % 256]

/-- Per-partition padding (gpio.h:205):
`(st_size % 512) ? 512 - st_size % 512 : 0`. -/
def padOf (sz : Nat) : Nat :=
  if sz % SECTOR_SIZE ≠ 0 then SECTOR_SIZE - sz % SECTOR_SIZE else 0

/-- Per-partition sector count before the `uint32_t` store (gpio.h:207):
`st_size / 512 + (pad != 0 ? 1 : 0)`.  This equals `ceil(st_size / 512)`. -/
def sectorsOf (sz : Nat) : Nat :=
  sz / SECTOR_SIZE + (if padOf sz ≠ 0 then 1 else 0)

/-- The partition-arrangement loop (gpio.h:200-209) on the list of source
sizes, carrying `cur_sector`.  Returns the `(partition_pad[i],
partition_lbas[i], partition_lba_counts[i])` triples and the final
`cur_sector`.  `partition_lba_counts[i]` and `cur_sector` are `uint32_t`,
hence the `% 2 ^ 32` on the stored count and on the `+=`. -/
def planSizes : Nat → List Nat → List (Nat × Nat × Nat) × Nat
  | cur, [] => ([], cur)
  | cur, sz :: rest =>
    let pad := padOf sz
    let cnt := sectorsOf sz % 2 ^ 32
    let r := planSizes ((cur + cnt) % 2 ^ 32) rest
    ((pad, cur, cnt) :: r.1, r.2)

/-- The 16 bytes of one populated partition-table entry (gpio.h:249-258):
boot flag, CHS of the start LBA, type byte, CHS of `start + count` (a
`uint32_t` addition, hence `% 2 ^ 32`), then the raw 4-byte writes of the
start LBA and the sector count. -/
def entryBytes (little : Bool) (flag ptype lba cnt : Nat) : List Nat :=
  [flag,
   (chs lba).2.head, (chs lba).2.sector, (chs lba).2.cylinder,
   ptype,
   (chs ((lba + cnt) % 2 ^ 32)).2.head,
   (chs ((lba + cnt) % 2 ^ 32)).2.sector,
   (chs ((lba + cnt) % 2 ^ 32)).2.cylinder]
  ++ write32 little lba ++ write32 little cnt

/-- The partition-table loop (gpio.h:226-260) over the remaining slot
indices (`[0, 1, 2, 3]` at the top call).  A slot past `partitions_sz - 1`
is 16 zero bytes; otherwise the sentinel asserts (gpio.h:234-235) may fire,
then the two `chs` calls may fail (returning the geometry error with
`partition_lbas[i]`, as both messages do, gpio.h:242 and 246), and
otherwise the 16 entry bytes are written.  Returns the bytes written by the
loop and the error, if any, that stopped it. -/
def entriesLoop (little : Bool) (active n : Nat) (types : List Nat)
    (plan : List (Nat × Nat × Nat)) : List Nat → List Nat × Option MkmbrErr
  | [] => ([], none)
  | i :: rest =>
    if n - 1 < i then
      let r := entriesLoop little active n types plan rest
      (List.replicate 16 0 ++ r.1, r.2)
    else
      let lba := (plan.getD i (0, 0, 0)).2.1
      let cnt := (plan.getD i (0, 0, 0)).2.2
      if lba = 2 ^ 32 - 1 ∨ cnt = 2 ^ 32 - 1 then
        ([], some .assertFail)
      else if (chs lba).1 ≠ 0 then
        ([], some (.geometry lba))
      else if (chs ((lba + cnt) % 2 ^ 32)).1 ≠ 0 then
        ([], some (.geometry lba))
      else
        let r := entriesLoop little active n types plan rest
        (entryBytes little (if active - 1 = i then 0x80 else 0x00)
          (types.getD i 0) lba cnt ++ r.1, r.2)

/-- The partition-content pass (gpio.h:266-280): each partition's bytes
followed by `partition_pad[i]` zero bytes. -/
def partitionData : List PartSpec → List (Nat × Nat × Nat) → List Nat
  | [], _ => []
  | _ :: _, [] => []
  | p :: ps, l :: ls =>
    p.content ++ List.replicate l.1 0 ++ partitionData ps ls

/-- Model of `mkmbr` (gpio.h:172-289).  Arguments mirror the C signature:
`little` is the host endianness (consumed by the raw `fwrite`s of
`uint32_t`s), `bootstrap` is the bootstrap buffer (`none` for a null
pointer) of which the first `bootstrap_sz` bytes are used, `partition_active`
is the 1-based active partition, `parts` the partition sources with their
types, and `hasFiles`/`hasTypes`/`hasOut` model the nullness checks on
`partition_files`, `partition_types` and `out`.  The result is the byte
stream written to `out` (partial output is kept on failure, as with a
`FILE*`) together with the error that aborted the build, if any. -/
def mkmbr (little : Bool) (bootstrap : Option (List Nat)) (bootstrap_sz : Nat)
    (partition_active : Nat) (parts : List PartSpec)
    (hasFiles hasTypes hasOut : Bool) : List Nat × Option MkmbrErr :=
  if 446 < bootstrap_sz ∨ (0 < bootstrap_sz ∧ bootstrap = none) then
    ([], some .validation)
  else if 4 < parts.length ∨ hasFiles = false ∨ hasTypes = false then
    ([], some .validation)
  else if partition_active < 1 ∨ parts.length < partition_active then
    ([], some .validation)
  else if hasOut = false then
    ([], some .validation)
  else
    let plan := (planSizes 1 (parts.map fun p => p.content.length)).1
    let fin := (planSizes 1 (parts.map fun p => p.content.length)).2
    let boot := (bootstrap.getD []).take bootstrap_sz
      ++ List.replicate (446 - bootstrap_sz) 0
    let r := entriesLoop little partition_active parts.length
      (parts.map fun p => p.ptype) plan [0, 1, 2, 3]
    match r.2 with
    | some e => (boot ++ r.1, some e)
    | none =>
      let total := boot ++ r.1 ++ [0x55, 0xAA] ++ partitionData parts plan
      if total.length / SECTOR_SIZE = fin then (total, none)
      else (total, some .assertFail)

/-- Proof-side abbreviation: the 16 bytes the table loop writes for slot `i`
when it does not fail there. -/
def slotBytes (little : Bool) (active n : Nat) (types : List Nat)
    (plan : List (Nat × Nat × Nat)) (i : Nat) : List Nat :=
  if n - 1 < i then List.replicate 16 0
  else entryBytes little (if active - 1 = i then 0x80 else 0x00)
    (types.getD i 0) (plan.getD i (0, 0, 0)).2.1 (plan.getD i (0, 0, 0)).2.2

/-- Proof-side predicate: the conditions under which the table loop writes
slot `i`'s populated entry without failing. -/
def entryOk (plan : List (Nat × Nat × Nat)) (i : Nat) : Prop :=
  (plan.getD i (0, 0, 0)).2.1 ≠ 2 ^ 32 - 1 ∧
  (plan.getD i (0, 0, 0)).2.2 ≠ 2 ^ 32 - 1 ∧
  (chs (plan.getD i (0, 0, 0)).2.1).1 = 0 ∧
  (chs (((plan.getD i (0, 0, 0)).2.1 + (plan.getD i (0, 0, 0)).2.2) % 2 ^ 32)).1 = 0

theorem write32_length (little : Bool) (n : Nat) : (write32 little n).length = 4 := by
  cases little <;> simp [write32]

theorem entryBytes_length (little : Bool) (flag ptype lba cnt : Nat) :
    (entryBytes little flag ptype lba cnt).length = 16 := by
  simp [entryBytes, write32_length]

theorem slotBytes_length (little : Bool) (active n : Nat) (types : List Nat)
    (plan : List (Nat × Nat × Nat)) (i : Nat) :
    (slotBytes little active n types plan i).length = 16 := by
  unfold slotBytes
  split
  · simp
  · exact entryBytes_length ..

/-- If the table loop succeeds, its output is the concatenation of the slot
bytes, and every populated slot it visited satisfied `entryOk`. -/
theorem entriesLoop_none (little : Bool) (active n : Nat) (types : List Nat)
    (plan : List (Nat × Nat × Nat)) :
    ∀ idxs, (entriesLoop little active n types plan idxs).2 = none →
      (entriesLoop little active n types plan idxs).1
        = (idxs.map (slotBytes little active n types plan)).flatten
      ∧ ∀ i ∈ idxs, ¬ n - 1 < i → entryOk plan i := by
  intro idxs
  induction idxs with
  | nil => intro _; simp [entriesLoop]
  | cons i rest ih =>
    intro h
    simp only [entriesLoop] at h ⊢
    by_cases h1 : n - 1 < i
    · rw [if_pos h1] at h ⊢
      obtain ⟨hb, hc⟩ := ih (by simpa using h)
      refine ⟨?_, ?_⟩
      · simpa [slotBytes, if_pos h1] using congrArg (List.replicate 16 0 ++ ·) hb
      · intro j hj hjn
        rcases List.mem_cons.mp hj with rfl | hj'
        · exact absurd h1 hjn
        · exact hc j hj' hjn
    · rw [if_neg h1] at h ⊢
      by_cases h2 : (plan.getD i (0, 0, 0)).2.1 = 2 ^ 32 - 1 ∨
          (plan.getD i (0, 0, 0)).2.2 = 2 ^ 32 - 1
      · rw [if_pos h2] at h
        simp at h
      · rw [if_neg h2] at h ⊢
        by_cases h3 : (chs (plan.getD i (0, 0, 0)).2.1).1 ≠ 0
        · rw [if_pos h3] at h
          simp at h
        · rw [if_neg h3] at h ⊢
          by_cases h4 : (chs (((plan.getD i (0, 0, 0)).2.1 +
              (plan.getD i (0, 0, 0)).2.2) % 2 ^ 32)).1 ≠ 0
          · rw [if_pos h4] at h
            simp at h
          · rw [if_neg h4] at h ⊢
            obtain ⟨hb, hc⟩ := ih (by simpa using h)
            refine ⟨?_, ?_⟩
            · simpa [slotBytes, if_neg h1] using
                congrArg (entryBytes little (if active - 1 = i then 0x80 else 0x00)
                  (types.getD i 0) (plan.getD i (0, 0, 0)).2.1
                  (plan.getD i (0, 0, 0)).2.2 ++ ·) hb
            · intro j hj hjn
              rcases List.mem_cons.mp hj with rfl | hj'
              · exact ⟨fun hx => h2 (Or.inl hx), fun hx => h2 (Or.inr hx),
                  not_not.mp h3, not_not.mp h4⟩
              · exact hc j hj' hjn

/-- The table loop never produces a validation error. -/
theorem entriesLoop_ne_validation (little : Bool) (active n : Nat)
    (types : List Nat) (plan : List (Nat × Nat × Nat)) :
    ∀ idxs, (entriesLoop little active n types plan idxs).2 ≠ some .validation := by
  intro idxs
  induction idxs with
  | nil => simp [entriesLoop]
  | cons i rest ih =>
    simp only [entriesLoop]
    by_cases h1 : n - 1 < i
    · rw [if_pos h1]
      exact ih
    · rw [if_neg h1]
      by_cases h2 : (plan.getD i (0, 0, 0)).2.1 = 2 ^ 32 - 1 ∨
          (plan.getD i (0, 0, 0)).2.2 = 2 ^ 32 - 1
      · rw [if_pos h2]
        simp
      · rw [if_neg h2]
        by_cases h3 : (chs (plan.getD i (0, 0, 0)).2.1).1 ≠ 0
        · rw [if_pos h3]
          simp
        · rw [if_neg h3]
          by_cases h4 : (chs (((plan.getD i (0, 0, 0)).2.1 +
              (plan.getD i (0, 0, 0)).2.2) % 2 ^ 32)).1 ≠ 0
          · rw [if_pos h4]
            simp
          · rw [if_neg h4]
            exact ih

theorem planSizes_length (sizes : List Nat) :
    ∀ cur, (planSizes cur sizes).1.length = sizes.length := by
  induction sizes with
  | nil => intro cur; simp [planSizes]
  | cons sz rest ih => intro cur; simp [planSizes, ih]

/-- The final `cur_sector` is the mod-2^32 total sector count. -/
theorem planSizes_fin (sizes : List Nat) :
    ∀ cur, cur < 2 ^ 32 →
      (planSizes cur sizes).2 = (cur + (sizes.map sectorsOf).sum) % 2 ^ 32 := by
  induction sizes with
  | nil =>
    intro cur hcur
    simp only [planSizes, List.map_nil, List.sum_nil, Nat.add_zero]
    omega
  | cons sz rest ih =>
    intro cur hcur
    simp only [planSizes, List.map_cons, List.sum_cons]
    rw [ih _ (Nat.mod_lt _ (by norm_num))]
    omega

/-- A source's size plus its padding is exactly its sector count in bytes. -/
theorem sz_add_pad (s : Nat) : s + padOf s = 512 * sectorsOf s := by
  unfold sectorsOf padOf SECTOR_SIZE
  split_ifs <;> omega

/-- When the true total sector count does not overflow `uint32_t`, each plan
entry holds its unwrapped padding, start LBA and sector count. -/
theorem planSizes_entry (sizes : List Nat) :
    ∀ (cur i : Nat), i < sizes.length →
      cur + (sizes.map sectorsOf).sum < 2 ^ 32 →
      (planSizes cur sizes).1.getD i (0, 0, 0)
        = (padOf (sizes.getD i 0),
           cur + ((sizes.take i).map sectorsOf).sum,
           sectorsOf (sizes.getD i 0)) := by
  induction sizes with
  | nil => intro cur i hi _; simp at hi
  | cons sz rest ih =>
    intro cur i hi hov
    simp only [List.map_cons, List.sum_cons] at hov
    have hm : sectorsOf sz % 4294967296 = sectorsOf sz := Nat.mod_eq_of_lt (by omega)
    have hcur : (cur + sectorsOf sz) % 4294967296 = cur + sectorsOf sz :=
      Nat.mod_eq_of_lt (by omega)
    match i with
    | 0 =>
      simp only [planSizes, Nat.reducePow, hm, List.getD_cons_zero,
        List.take_zero, List.map_nil, List.sum_nil, Nat.add_zero]
    | i + 1 =>
      simp only [planSizes, Nat.reducePow, hm, hcur, List.getD_cons_succ,
        List.take_succ_cons, List.map_cons, List.sum_cons]
      rw [ih (cur + sectorsOf sz) i (by simpa using hi) (by omega)]
      simp only [Prod.mk.injEq, and_true, true_and]
      omega

/-- Length of the streamed partition data, in terms of the true (unwrapped)
sector counts. -/
theorem partitionData_length (parts : List PartSpec) :
    ∀ cur, (partitionData parts
        (planSizes cur (parts.map fun p => p.content.length)).1).length
      = 512 * ((parts.map fun p => sectorsOf p.content.length).sum) := by
  induction parts with
  | nil => intro cur; simp [partitionData, planSizes]
  | cons p ps ih =>
    intro cur
    simp only [List.map_cons, planSizes, partitionData, List.length_append,
      List.length_replicate, List.sum_cons]
    rw [ih]
    have := sz_add_pad p.content.length
    omega

set_option maxHeartbeats 1600000 in
/-- Central characterization of a successful `mkmbr` run: the output bytes
are the padded bootstrap, the four table slots, the signature and the
partition data; the validation checks passed; the true total sector count
fits in `uint32_t`; and every populated plan entry passed its checks and
holds its unwrapped padding, start LBA and sector count. -/
theorem mkmbr_none_shape (little : Bool) (b : Option (List Nat)) (sz active : Nat)
    (parts : List PartSpec) (hf ht ho : Bool)
    (hwf : ∀ l, b = some l → sz ≤ l.length)
    (h : (mkmbr little b sz active parts hf ht ho).2 = none) :
    (mkmbr little b sz active parts hf ht ho).1
      = ((b.getD []).take sz ++ List.replicate (446 - sz) 0)
        ++ ([0, 1, 2, 3].map (slotBytes little active parts.length
             (parts.map fun p => p.ptype)
             (planSizes 1 (parts.map fun p => p.content.length)).1)).flatten
        ++ [0x55, 0xAA]
        ++ partitionData parts (planSizes 1 (parts.map fun p => p.content.length)).1
    ∧ ((b.getD []).take sz).length = sz
    ∧ sz ≤ 446 ∧ 1 ≤ active ∧ active ≤ parts.length ∧ parts.length ≤ 4
    ∧ 1 + ((parts.map fun p => p.content.length).map sectorsOf).sum < 2 ^ 32
    ∧ ∀ i, i < parts.length →
        entryOk (planSizes 1 (parts.map fun p => p.content.length)).1 i
        ∧ (planSizes 1 (parts.map fun p => p.content.length)).1.getD i (0, 0, 0)
            = (padOf ((parts.map fun p => p.content.length).getD i 0),
               1 + (((parts.map fun p => p.content.length).take i).map sectorsOf).sum,
               sectorsOf ((parts.map fun p => p.content.length).getD i 0)) := by
  simp only [mkmbr] at h ⊢
  by_cases c1 : 446 < sz ∨ (0 < sz ∧ b = none)
  · rw [if_pos c1] at h
    exact absurd h (by simp)
  rw [if_neg c1] at h ⊢
  by_cases c2 : 4 < parts.length ∨ hf = false ∨ ht = false
  · rw [if_pos c2] at h
    exact absurd h (by simp)
  rw [if_neg c2] at h ⊢
  by_cases c3 : active < 1 ∨ parts.length < active
  · rw [if_pos c3] at h
    exact absurd h (by simp)
  rw [if_neg c3] at h ⊢
  by_cases c4 : ho = false
  · rw [if_pos c4] at h
    exact absurd h (by simp)
  rw [if_neg c4] at h ⊢
  cases hr : (entriesLoop little active parts.length (parts.map fun p => p.ptype)
      (planSizes 1 (parts.map fun p => p.content.length)).1 [0, 1, 2, 3]).2 with
  | some e =>
    rw [hr] at h
    exact absurd h (by simp)
  | none =>
    rw [hr] at h
    dsimp only at h ⊢
    have key := entriesLoop_none little active parts.length
      (parts.map fun p => p.ptype)
      (planSizes 1 (parts.map fun p => p.content.length)).1 [0, 1, 2, 3]
    obtain ⟨hbytes, hconds⟩ := key hr
    have htake : ((b.getD []).take sz).length = sz := by
      cases hb : b with
      | none =>
        have hsz : sz = 0 := by
          rcases Nat.eq_zero_or_pos sz with h0 | hpos
          · exact h0
          · exact absurd (Or.inr ⟨hpos, hb⟩) c1
        simp [hsz]
      | some l =>
        have := hwf l hb
        simp [List.length_take]
        omega
    have hboot : ((b.getD []).take sz ++ List.replicate (446 - sz) 0).length = 446 := by
      have hsz : sz ≤ 446 := by
        rcases Nat.lt_or_ge 446 sz with hgt | hle
        · exact absurd (Or.inl hgt) c1
        · omega
      simp only [List.length_append, List.length_replicate, htake]
      omega
    have hloop : ((([0, 1, 2, 3].map (slotBytes little active parts.length
        (parts.map fun p => p.ptype)
        (planSizes 1 (parts.map fun p => p.content.length)).1))).flatten).length = 64 := by
      simp [slotBytes_length]
    have hdata := partitionData_length parts 1
    have hfin := planSizes_fin (parts.map fun p => p.content.length) 1 (by norm_num)
    split at h
    · rename_i hcnd
      rw [if_pos hcnd]
      rw [hbytes] at hcnd ⊢
      simp only [List.length_append, hboot, hloop, hdata, hfin, SECTOR_SIZE,
        List.length_cons, List.length_nil] at hcnd
      have hov : 1 + (parts.map fun p => sectorsOf p.content.length).sum < 2 ^ 32 := by
        omega
      have hsum : (parts.map fun p => sectorsOf p.content.length).sum
          = ((parts.map fun p => p.content.length).map sectorsOf).sum := by
        simp [List.map_map, Function.comp_def]
      refine ⟨rfl, htake, by omega, by omega, by omega, by omega, by omega, ?_⟩
      intro i hi
      have hmem : i ∈ [0, 1, 2, 3] := by
        have : i < 4 := by omega
        simp only [List.mem_cons, List.not_mem_nil, or_false]
        omega
      refine ⟨hconds i hmem (by omega), ?_⟩
      exact planSizes_entry (parts.map fun p => p.content.length) 1 i
        (by simpa using hi) (by omega)
    · exact absurd h (by simp)

/-- C7: for every call with a malformed shape — bootstrap longer than 446
bytes, partition count outside 1-4, active partition index outside
[1, count], or a missing output sink — `mkmbr` fails one of the upfront
validation checks, before any planning I/O or writing: it returns the
validation error and zero bytes are written to the output. -/
theorem mkmbr_validation_rejects (little : Bool) (b : Option (List Nat))
    (sz active : Nat) (parts : List PartSpec) (hf ht ho : Bool)
    (hbad : 446 < sz ∨ parts.length = 0 ∨ 4 < parts.length ∨
      active < 1 ∨ parts.length < active ∨ ho = false) :
    mkmbr little b sz active parts hf ht ho = ([], some .validation) := by
  simp only [mkmbr]
  by_cases c1 : 446 < sz ∨ (0 < sz ∧ b = none)
  · rw [if_pos c1]
  rw [if_neg c1]
  by_cases c2 : 4 < parts.length ∨ hf = false ∨ ht = false
  · rw [if_pos c2]
  rw [if_neg c2]
  by_cases c3 : active < 1 ∨ parts.length < active
  · rw [if_pos c3]
  rw [if_neg c3]
  by_cases c4 : ho = false
  · rw [if_pos c4]
  rw [if_neg c4]
  exfalso
  push_neg at c1 c2 c3
  rcases hbad with hx | hx | hx | hx | hx | hx
  · omega
  · omega
  · omega
  · omega
  · omega
  · exact absurd hx c4

/-- Witness for C7: a 447-byte bootstrap is rejected with no output. -/
theorem mkmbr_validation_rejects_witness :
    (446 < 447 ∨ ([⟨[], 14⟩] : List PartSpec).length = 0 ∨
      4 < ([⟨[], 14⟩] : List PartSpec).length ∨ 1 < 1 ∨
      ([⟨[], 14⟩] : List PartSpec).length < 1 ∨ true = false) ∧
    mkmbr true (some (List.replicate 447 0)) 447 1 [⟨[], 14⟩] true true true
      = ([], some .validation) :=
  ⟨Or.inl (by norm_num),
   mkmbr_validation_rejects true (some (List.replicate 447 0)) 447 1 [⟨[], 14⟩]
     true true true (Or.inl (by norm_num))⟩

/-- C10: `mkmbr` accepts a null bootstrap buffer pointer exactly when
`bootstrap_sz` is 0: with an otherwise valid shape it passes validation
(whatever happens later is a geometry/assert failure, never a validation
error) and the 446-byte bootstrap region of the output is all zeros, just
as for any empty bootstrap; a null pointer together with `bootstrap_sz > 0`
is rejected as a validation error before any output. -/
theorem mkmbr_null_bootstrap (little : Bool) (sz active : Nat)
    (parts : List PartSpec) (hf ht ho : Bool) :
    ((sz = 0 ∧ 1 ≤ active ∧ active ≤ parts.length ∧ parts.length ≤ 4 ∧
        hf = true ∧ ht = true ∧ ho = true) →
      (mkmbr little none sz active parts hf ht ho).2 ≠ some .validation ∧
      (mkmbr little none sz active parts hf ht ho).1.take 446
        = List.replicate 446 0) ∧
    (0 < sz → mkmbr little none sz active parts hf ht ho
        = ([], some .validation)) := by
  constructor
  · rintro ⟨rfl, ha1, ha2, ha3, rfl, rfl, rfl⟩
    simp only [mkmbr]
    rw [if_neg (by simp), if_neg (by simp; omega), if_neg (by omega),
      if_neg (by simp)]
    cases hr : (entriesLoop little active parts.length (parts.map fun p => p.ptype)
        (planSizes 1 (parts.map fun p => p.content.length)).1 [0, 1, 2, 3]).2 with
    | some e =>
      have hnv := entriesLoop_ne_validation little active parts.length
        (parts.map fun p => p.ptype)
        (planSizes 1 (parts.map fun p => p.content.length)).1 [0, 1, 2, 3]
      rw [hr] at hnv
      dsimp only
      refine ⟨hnv, ?_⟩
      simp only [Option.getD_none, List.take_nil, List.nil_append, List.append_assoc]
      exact List.take_left' (by simp)
    | none =>
      dsimp only
      split
      · refine ⟨by simp, ?_⟩
        simp only [Option.getD_none, List.take_nil, List.nil_append, List.append_assoc]
        exact List.take_left' (by simp)
      · refine ⟨by simp, ?_⟩
        simp only [Option.getD_none, List.take_nil, List.nil_append, List.append_assoc]
        exact List.take_left' (by simp)
  · intro hpos
    simp only [mkmbr]
    rw [if_pos (Or.inr ⟨hpos, by trivial⟩)]

/-- Witness for C10: a null bootstrap with size 0 passes validation and
yields a zeroed bootstrap region; a null bootstrap with size 1 is rejected
with no output. -/
theorem mkmbr_null_bootstrap_witness :
    (mkmbr true none 0 1 [⟨List.replicate 512 0, 14⟩] true true true).1.take 446
      = List.replicate 446 0 ∧
    mkmbr true none 1 1 [⟨List.replicate 512 0, 14⟩] true true true
      = ([], some .validation) :=
  ⟨((mkmbr_null_bootstrap true 0 1 [⟨List.replicate 512 0, 14⟩] true true true).1
      ⟨rfl, by norm_num, by norm_num, by norm_num, rfl, rfl, rfl⟩).2,
   (mkmbr_null_bootstrap true 1 1 [⟨List.replicate 512 0, 14⟩] true true true).2
     (by norm_num)⟩

/-- C5 counterexample: the 32-bit fields are *not* serialized
least-significant-byte first independently of the host byte order.  On a
big-endian host, with one 512-byte partition, the four bytes emitted for
the partition's start-LBA field (offsets 454-457, start LBA 1) are
`[0, 0, 0, 1]` — the big-endian representation — not the little-endian
encoding `[1, 0, 0, 0]`. -/
theorem mkmbr_bigendian_not_le :
    ((mkmbr false none 0 1 [⟨List.replicate 512 0, 14⟩] true true true).1.drop 454).take 4
      = [0, 0, 0, 1] ∧
    le32 1 = [1, 0, 0, 0] ∧
    ¬ ((mkmbr false none 0 1 [⟨List.replicate 512 0, 14⟩] true true true).1.drop 454).take 4
      = le32 1 := by
  decide

/-- C5 amended: the serializer writes the four memory bytes of the
`uint32_t` — the host's native order — and `main` refuses to run on any
host that is not little-endian; on every host the program supports
(`endianSupported`), the emitted four bytes are therefore exactly the
little-endian encoding of the value. -/
theorem write32_le_on_supported_host (little : Bool) (n : Nat)
    (h : endianSupported little = true) :
    write32 little n = le32 n := by
  cases little
  · simp [endianSupported] at h
  · simp [write32, le32]

/-- Witness for the amended C5 at `n = 5` on a little-endian host. -/
theorem write32_le_on_supported_host_witness :
    endianSupported true = true ∧ write32 true 5 = le32 5 :=
  ⟨rfl, write32_le_on_supported_host true 5 rfl⟩

/-- The sum over an initial segment plus the next element is at most the
whole sum. -/
theorem take_map_sum_le (f : Nat → Nat) (S : List Nat) :
    ∀ i, i < S.length →
      ((S.take i).map f).sum + f (S.getD i 0) ≤ (S.map f).sum := by
  induction S with
  | nil => intro i hi; simp at hi
  | cons s rest ih =>
    intro i hi
    match i with
    | 0 =>
      simp only [List.take_zero, List.map_nil, List.sum_nil, Nat.zero_add,
        List.getD_cons_zero, List.map_cons, List.sum_cons]
      omega
    | i + 1 =>
      simp only [List.take_succ_cons, List.map_cons, List.sum_cons,
        List.getD_cons_succ]
      have := ih i (by simpa using hi)
      omega

/-- On a little-endian host, the raw write of a `uint32_t` is its
little-endian encoding. -/
theorem write32_true (n : Nat) : write32 true n = le32 n := rfl

/-- Spec-side definition (from the claim): a populated 16-byte partition
entry `[boot-flag(1)][CHS of startLBA(3)][type(1)][CHS of
startLBA+sectorCount(3)][startLBA(4,LE)][sectorCount(4,LE)]`. -/
def specEntryBytes (flag ptype lba cnt : Nat) : List Nat :=
  [flag,
   (chs lba).2.head, (chs lba).2.sector, (chs lba).2.cylinder,
   ptype,
   (chs (lba + cnt)).2.head, (chs (lba + cnt)).2.sector,
   (chs (lba + cnt)).2.cylinder]
  ++ le32 lba ++ le32 cnt

/-- Spec-side definition (from the claim): table slot `i` — the populated
entry when partition `i + 1` exists (boot flag 0x80 exactly on the active
partition), an all-zero 16-byte entry otherwise. -/
def specSlot (active n : Nat) (types : List Nat)
    (plan : List (Nat × Nat × Nat)) (i : Nat) : List Nat :=
  if i < n then
    specEntryBytes (if active - 1 = i then 0x80 else 0x00) (types.getD i 0)
      (plan.getD i (0, 0, 0)).2.1 (plan.getD i (0, 0, 0)).2.2
  else List.replicate 16 0

/-- Spec-side definition (from the claim): the 512-byte boot sector — the
bootstrap bytes zero-padded to fill bytes 0-445, four 16-byte partition
entries at offsets 446 + 16*i, then the signature bytes 0x55, 0xAA at
offsets 510-511. -/
def specBootSector (bootstrap : List Nat) (active n : Nat) (types : List Nat)
    (plan : List (Nat × Nat × Nat)) : List Nat :=
  (bootstrap ++ List.replicate (446 - bootstrap.length) 0)
  ++ ((List.range 4).map (specSlot active n types plan)).flatten
  ++ [0x55, 0xAA]

/-- C4: on a successful build (necessarily on a little-endian host — the
only hosts the program runs on), the first 512 output bytes are exactly:
the bootstrap bytes zero-padded to fill bytes 0-445, then four 16-byte
partition entries at offsets 446 + 16*i, each laid out as
`[boot-flag(1)][CHS of startLBA(3)][type(1)][CHS of startLBA+sectorCount(3)]
[startLBA(4,LE)][sectorCount(4,LE)]`, then signature bytes 0x55, 0xAA at
offsets 510-511. -/
theorem mkmbr_success_bootsector (b : Option (List Nat)) (sz active : Nat)
    (parts : List PartSpec) (hf ht ho : Bool)
    (hwf : ∀ l, b = some l → sz ≤ l.length)
    (h : (mkmbr true b sz active parts hf ht ho).2 = none) :
    (mkmbr true b sz active parts hf ht ho).1.take 512
      = specBootSector ((b.getD []).take sz) active parts.length
          (parts.map fun p => p.ptype)
          (planSizes 1 (parts.map fun p => p.content.length)).1 := by
  obtain ⟨hout, htake, hsz, ha1, ha2, hn4, hov, hentry⟩ :=
    mkmbr_none_shape true b sz active parts hf ht ho hwf h
  have hA : ((b.getD []).take sz ++ List.replicate (446 - sz) 0).length = 446 := by
    simp only [List.length_append, List.length_replicate, htake]
    omega
  have hslot : ∀ i, i < 4 →
      slotBytes true active parts.length (parts.map fun p => p.ptype)
        (planSizes 1 (parts.map fun p => p.content.length)).1 i
      = specSlot active parts.length (parts.map fun p => p.ptype)
          (planSizes 1 (parts.map fun p => p.content.length)).1 i := by
    intro i hi4
    by_cases hin : i < parts.length
    · obtain ⟨hok, heq⟩ := hentry i hin
      have h21 : ((planSizes 1 (parts.map fun p => p.content.length)).1.getD
          i (0, 0, 0)).2.1
          = 1 + (((parts.map fun p => p.content.length).take i).map sectorsOf).sum := by
        rw [heq]
      have h22 : ((planSizes 1 (parts.map fun p => p.content.length)).1.getD
          i (0, 0, 0)).2.2
          = sectorsOf ((parts.map fun p => p.content.length).getD i 0) := by
        rw [heq]
      have hle := take_map_sum_le sectorsOf (parts.map fun p => p.content.length) i
        (by simpa using hin)
      have hbound : ((planSizes 1 (parts.map fun p => p.content.length)).1.getD
            i (0, 0, 0)).2.1
          + ((planSizes 1 (parts.map fun p => p.content.length)).1.getD
            i (0, 0, 0)).2.2 < 2 ^ 32 := by
        rw [h21, h22]
        omega
      unfold slotBytes specSlot
      rw [if_neg (by omega), if_pos hin]
      unfold entryBytes specEntryBytes
      rw [Nat.mod_eq_of_lt hbound, write32_true, write32_true]
    · unfold slotBytes specSlot
      rw [if_pos (by omega), if_neg hin]
  rw [hout]
  have hBc : (([0, 1, 2, 3].map (slotBytes true active parts.length
      (parts.map fun p => p.ptype)
      (planSizes 1 (parts.map fun p => p.content.length)).1)).flatten).length = 64 := by
    simp [slotBytes_length]
  have hX : ((((b.getD []).take sz ++ List.replicate (446 - sz) 0)
      ++ (List.map (slotBytes true active parts.length
          (List.map (fun p : PartSpec => p.ptype) parts)
          (planSizes 1 (List.map (fun p : PartSpec => p.content.length) parts)).1)
          [0, 1, 2, 3]).flatten)
      ++ [0x55, 0xAA]).length = 512 := by
    simp only [List.length_append, hA, hBc, List.length_cons, List.length_nil]
  rw [List.take_left' hX]
  simp only [specBootSector, htake]
  have hrange : List.range 4 = [0, 1, 2, 3] := rfl
  rw [hrange]
  simp only [List.map_cons, List.map_nil]
  rw [hslot 0 (by norm_num), hslot 1 (by norm_num), hslot 2 (by norm_num),
    hslot 3 (by norm_num)]

/-- Witness for C4: one 512-byte partition, empty bootstrap. -/
theorem mkmbr_success_bootsector_witness :
    (mkmbr true none 0 1 [⟨List.replicate 512 0, 14⟩] true true true).2 = none ∧
    (mkmbr true none 0 1 [⟨List.replicate 512 0, 14⟩] true true true).1.take 512
      = specBootSector (((none : Option (List Nat)).getD []).take 0) 1
          ([⟨List.replicate 512 0, 14⟩] : List PartSpec).length
          (([⟨List.replicate 512 0, 14⟩] : List PartSpec).map fun p => p.ptype)
          (planSizes 1 (([⟨List.replicate 512 0, 14⟩] : List PartSpec).map
            fun p => p.content.length)).1 :=
  ⟨by decide,
   mkmbr_success_bootsector none 0 1 [⟨List.replicate 512 0, 14⟩] true true true
     (fun _ _ => Nat.zero_le _) (by decide)⟩

/-- Under success, the 16-byte window of the output at offset `446 + 16*i`
is exactly table slot `i`. -/
theorem mkmbr_slot_window (little : Bool) (b : Option (List Nat)) (sz active : Nat)
    (parts : List PartSpec) (hf ht ho : Bool)
    (hwf : ∀ l, b = some l → sz ≤ l.length)
    (h : (mkmbr little b sz active parts hf ht ho).2 = none) :
    ∀ i, i < 4 →
      ((mkmbr little b sz active parts hf ht ho).1.drop (446 + 16 * i)).take 16
        = slotBytes little active parts.length (parts.map fun p => p.ptype)
            (planSizes 1 (parts.map fun p => p.content.length)).1 i := by
  obtain ⟨hout, htake, hsz, ha1, ha2, hn4, hov, hentry⟩ :=
    mkmbr_none_shape little b sz active parts hf ht ho hwf h
  intro i hi
  rw [hout]
  set A := List.take sz (b.getD []) ++ List.replicate (446 - sz) 0 with hAdef
  have hA : A.length = 446 := by
    rw [hAdef]
    simp only [List.length_append, List.length_replicate, htake]
    omega
  simp only [List.map_cons, List.map_nil, List.flatten_cons, List.flatten_nil,
    List.append_assoc, List.append_nil]
  interval_cases i
  · rw [show 446 + 16 * 0 = 446 from rfl, List.drop_left' hA,
      List.take_left' (slotBytes_length _ _ _ _ _ _)]
  · rw [show 446 + 16 * 1 = 446 + 16 from rfl, ← List.drop_drop,
      List.drop_left' hA, List.drop_left' (slotBytes_length _ _ _ _ _ _),
      List.take_left' (slotBytes_length _ _ _ _ _ _)]
  · rw [show 446 + 16 * 2 = 446 + 16 + 16 from rfl, ← List.drop_drop, ← List.drop_drop,
      List.drop_left' hA, List.drop_left' (slotBytes_length _ _ _ _ _ _),
      List.drop_left' (slotBytes_length _ _ _ _ _ _),
      List.take_left' (slotBytes_length _ _ _ _ _ _)]
  · rw [show 446 + 16 * 3 = 446 + 16 + 16 + 16 from rfl, ← List.drop_drop,
      ← List.drop_drop, ← List.drop_drop, List.drop_left' hA,
      List.drop_left' (slotBytes_length _ _ _ _ _ _),
      List.drop_left' (slotBytes_length _ _ _ _ _ _),
      List.drop_left' (slotBytes_length _ _ _ _ _ _),
      List.take_left' (slotBytes_length _ _ _ _ _ _)]

/-- C6: in every successfully written partition table, the populated entry
at slot `i` carries boot flag 0x80 exactly when `i` is the active index
`partition_active - 1` and 0x00 otherwise, and every unused slot is an
entirely zero 16-byte entry. -/
theorem mkmbr_boot_flags (little : Bool) (b : Option (List Nat)) (sz active : Nat)
    (parts : List PartSpec) (hf ht ho : Bool)
    (hwf : ∀ l, b = some l → sz ≤ l.length)
    (h : (mkmbr little b sz active parts hf ht ho).2 = none) :
    ∀ i, i < 4 →
      (i < parts.length →
        (((mkmbr little b sz active parts hf ht ho).1.drop (446 + 16 * i)).take 16).head?
          = some (if active - 1 = i then 0x80 else 0x00)) ∧
      (parts.length ≤ i →
        ((mkmbr little b sz active parts hf ht ho).1.drop (446 + 16 * i)).take 16
          = List.replicate 16 0) := by
  have hwin := mkmbr_slot_window little b sz active parts hf ht ho hwf h
  obtain ⟨hout, htake, hsz, ha1, ha2, hn4, hov, hentry⟩ :=
    mkmbr_none_shape little b sz active parts hf ht ho hwf h
  intro i hi
  constructor
  · intro hin
    rw [hwin i hi]
    unfold slotBytes
    rw [if_neg (by omega)]
    simp [entryBytes]
  · intro hun
    rw [hwin i hi]
    unfold slotBytes
    rw [if_pos (by omega)]

/-- Witness for C6: one 512-byte partition; slot 0 is populated and active,
slot 2 is unused and all zero. -/
theorem mkmbr_boot_flags_witness :
    (mkmbr true none 0 1 [⟨List.replicate 512 0, 14⟩] true true true).2 = none ∧
    (((mkmbr true none 0 1 [⟨List.replicate 512 0, 14⟩] true true true).1.drop
        (446 + 16 * 0)).take 16).head? = some (if 1 - 1 = 0 then 0x80 else 0x00) ∧
    ((mkmbr true none 0 1 [⟨List.replicate 512 0, 14⟩] true true true).1.drop
        (446 + 16 * 2)).take 16 = List.replicate 16 0 :=
  ⟨by decide,
   (mkmbr_boot_flags true none 0 1 [⟨List.replicate 512 0, 14⟩] true true true
     (fun _ _ => Nat.zero_le _) (by decide) 0 (by norm_num)).1 (by norm_num),
   (mkmbr_boot_flags true none 0 1 [⟨List.replicate 512 0, 14⟩] true true true
     (fun _ _ => Nat.zero_le _) (by decide) 2 (by norm_num)).2 (by norm_num)⟩

/-- C3 (code bug): with a single partition whose source is `2^41` bytes (a
2 TiB file), the `uint32_t` store of the sector count truncates
`2^41 / 512 = 2^32` to 0, so the planned layout violates
`sectorCount = ceil(byteLength / 512)`; the build then runs to the end and
fails the code's own final sanity assert (gpio.h:282), because the bytes
written amount to `1 + 2^32` sectors while `cur_sector` is 1. -/
theorem mkmbr_sector_count_truncates (l : List Nat) (hl : l.length = 2 ^ 41) :
    ((planSizes 1 [2 ^ 41]).1.getD 0 (0, 0, 0)).2.2 = 0 ∧
    (2 ^ 41 + 512 - 1) / 512 = 2 ^ 32 ∧
    ((planSizes 1 [2 ^ 41]).1.getD 0 (0, 0, 0)).2.2 ≠ (2 ^ 41 + 512 - 1) / 512 ∧
    (mkmbr true none 0 1 [⟨l, 14⟩] true true true).2 = some .assertFail := by
  have hplan : planSizes 1 [2 ^ 41] = ([(0, 1, 0)], 1) := by decide
  have hr : (entriesLoop true 1 1 [14] [(0, 1, 0)] [0, 1, 2, 3]).2 = none := by
    decide
  have hlb : (entriesLoop true 1 1 [14] [(0, 1, 0)] [0, 1, 2, 3]).1.length = 64 := by
    decide
  refine ⟨by decide, by norm_num, by decide, ?_⟩
  simp only [mkmbr]
  rw [if_neg (by simp), if_neg (by simp), if_neg (by simp), if_neg (by simp)]
  simp only [List.map_cons, List.map_nil, List.length_cons, List.length_nil,
    hl, hplan]
  rw [hr]
  dsimp only
  split
  · rename_i hcnd
    exfalso
    simp only [partitionData, List.length_append, List.take_zero,
      Option.getD_none, List.length_nil, List.length_cons,
      List.length_replicate, hlb, List.nil_append, hl, SECTOR_SIZE] at hcnd
    omega
  · rfl

/-- Witness for C3 at the concrete 2 TiB source `List.replicate (2^41) 0`. -/
theorem mkmbr_sector_count_truncates_witness :
    (List.replicate (2 ^ 41) (0 : Nat)).length = 2 ^ 41 ∧
    (((planSizes 1 [2 ^ 41]).1.getD 0 (0, 0, 0)).2.2 = 0 ∧
     (2 ^ 41 + 512 - 1) / 512 = 2 ^ 32 ∧
     ((planSizes 1 [2 ^ 41]).1.getD 0 (0, 0, 0)).2.2 ≠ (2 ^ 41 + 512 - 1) / 512 ∧
     (mkmbr true none 0 1 [⟨List.replicate (2 ^ 41) 0, 14⟩] true true true).2
       = some .assertFail) :=
  ⟨List.length_replicate .., mkmbr_sector_count_truncates
    (List.replicate (2 ^ 41) 0) (List.length_replicate ..)⟩

/-- C9 (code bug): two partitions of 512 and `512 * (2^32 - 2)` bytes.  The
second partition's start LBA plus its sector count is `2 + (2^32 - 2) =
2^32`, far past cylinder 1023 — yet the build does **not** return a
geometry error: the end-CHS is computed from the `uint32_t` sum
`(2 + (2^32 - 2)) mod 2^32 = 0`, `chs 0` succeeds, and the signature bytes
0x55 0xAA *are* written (offsets 510-511); the run only dies afterwards on
the code's own final sanity assert (gpio.h:282). -/
theorem mkmbr_wrap_defeats_overflow_check (l1 l2 : List Nat)
    (hl1 : l1.length = 512) (hl2 : l2.length = 512 * (2 ^ 32 - 2)) :
    ((planSizes 1 [512, 512 * (2 ^ 32 - 2)]).1.getD 1 (0, 0, 0)).2.1
      + ((planSizes 1 [512, 512 * (2 ^ 32 - 2)]).1.getD 1 (0, 0, 0)).2.2
      = 2 ^ 32 ∧
    1023 < 2 ^ 32 / (SECTORS_PER_HEAD * HEADS_PER_CYLINDER) ∧
    (mkmbr true none 0 1 [⟨l1, 14⟩, ⟨l2, 14⟩] true true true).2
      = some .assertFail ∧
    (((mkmbr true none 0 1 [⟨l1, 14⟩, ⟨l2, 14⟩] true true true).1.drop 510).take 2)
      = [0x55, 0xAA] := by
  have hplan : planSizes 1 [512, 512 * (2 ^ 32 - 2)]
      = ([(0, 1, 1), (0, 2, 4294967294)], 0) := by decide
  have hr : (entriesLoop true 1 2 [14, 14] [(0, 1, 1), (0, 2, 4294967294)]
      [0, 1, 2, 3]).2 = none := by decide
  have hlb : (entriesLoop true 1 2 [14, 14] [(0, 1, 1), (0, 2, 4294967294)]
      [0, 1, 2, 3]).1.length = 64 := by decide
  have hmk : mkmbr true none 0 1 [⟨l1, 14⟩, ⟨l2, 14⟩] true true true
      = (List.replicate 446 0
          ++ (entriesLoop true 1 2 [14, 14] [(0, 1, 1), (0, 2, 4294967294)]
              [0, 1, 2, 3]).1
          ++ [0x55, 0xAA]
          ++ partitionData [⟨l1, 14⟩, ⟨l2, 14⟩] [(0, 1, 1), (0, 2, 4294967294)],
        some .assertFail) := by
    simp only [mkmbr]
    rw [if_neg (by simp), if_neg (by simp), if_neg (by simp), if_neg (by simp)]
    simp only [List.map_cons, List.map_nil, List.length_cons, List.length_nil,
      hl1, hl2, hplan]
    rw [hr]
    dsimp only
    split
    · rename_i hcnd
      exfalso
      simp only [partitionData, List.length_append, List.take_zero,
        Option.getD_none, List.length_nil, List.length_cons,
        List.length_replicate, hlb, List.nil_append, hl1, hl2, SECTOR_SIZE] at hcnd
      omega
    · simp only [List.take_zero, List.nil_append, Nat.sub_zero]
  refine ⟨by decide, by decide, ?_, ?_⟩
  · rw [hmk]
  · rw [hmk]
    dsimp only
    have hfront : (List.replicate (446 : Nat) 0
        ++ (entriesLoop true 1 2 [14, 14] [(0, 1, 1), (0, 2, 4294967294)]
            [0, 1, 2, 3]).1).length = 510 := by
      simp only [List.length_append, List.length_replicate, hlb]
    rw [List.append_assoc (List.replicate 446 0
      ++ (entriesLoop true 1 2 [14, 14] [(0, 1, 1), (0, 2, 4294967294)]
          [0, 1, 2, 3]).1)]
    rw [List.drop_left' hfront]
    rw [List.take_left' (by simp : ([0x55, 0xAA] : List Nat).length = 2)]

/-- Witness for C9 at the concrete sources `List.replicate 512 0` and
`List.replicate (512 * (2^32 - 2)) 0`. -/
theorem mkmbr_wrap_defeats_overflow_check_witness :
    (List.replicate 512 (0 : Nat)).length = 512 ∧
    (List.replicate (512 * (2 ^ 32 - 2)) (0 : Nat)).length
      = 512 * (2 ^ 32 - 2) ∧
    (((planSizes 1 [512, 512 * (2 ^ 32 - 2)]).1.getD 1 (0, 0, 0)).2.1
       + ((planSizes 1 [512, 512 * (2 ^ 32 - 2)]).1.getD 1 (0, 0, 0)).2.2
       = 2 ^ 32 ∧
     1023 < 2 ^ 32 / (SECTORS_PER_HEAD * HEADS_PER_CYLINDER) ∧
     (mkmbr true none 0 1 [⟨List.replicate 512 0, 14⟩,
         ⟨List.replicate (512 * (2 ^ 32 - 2)) 0, 14⟩] true true true).2
       = some .assertFail ∧
     (((mkmbr true none 0 1 [⟨List.replicate 512 0, 14⟩,
         ⟨List.replicate (512 * (2 ^ 32 - 2)) 0, 14⟩] true true true).1.drop
           510).take 2)
       = [0x55, 0xAA]) :=
  ⟨List.length_replicate .., List.length_replicate ..,
   mkmbr_wrap_defeats_overflow_check (List.replicate 512 0)
     (List.replicate (512 * (2 ^ 32 - 2)) 0)
     (List.length_replicate ..) (List.length_replicate ..)⟩

end Mkmbr
